import Mathlib

/-!
Verification development for `backup_rs` (`src/main.rs`), a small wrapper that
drives `rsync` to create timestamped, hard-link-deduplicated backup snapshots.

The Rust source is shallowly embedded as executable Lean definitions:

* the stdout demultiplexer of `run_rsync` (lines 76–107): tokio's
  `BufReader::split(0x0d)` segmentation, the `split(0x0a)` sub-splitting, the
  `break` on an empty segment, and strict UTF-8 decoding via
  `std::str::from_utf8`;
* `dirname_is_valid_date` / `make_versioned_dir` (lines 112–148): entry
  validation through chrono's `Local.datetime_from_str(_, "%Y%m%d%H%M")`,
  the `Vec::sort` + `pop` selection of the `--link-dest` reference, and the
  in-place replacement of `cli.target_dir`;
* the argument construction of `run_rsync` (lines 42–64);
* the exit-status mapping of `main` (lines 152–161).

Byte streams are `List Nat` (each element a byte value), paths and names are
`String`, and fallible code returns `Except`.  A Rust panic (a reachable
`.unwrap()` on an error/`None` value) is modelled as the distinguished
outcome `RunErr.panicked` / `none`, since a panic aborts the process.
-/

namespace BackupRs

/-! ## Stream demultiplexer (src/main.rs lines 76–107) -/

/-- One record produced by the output demultiplexer: either a progress update
(a CR-delimited segment with no line feed, printed as `Progress: …`) or a log
line (one LF-delimited piece of a segment, printed as `Line: …`).  The payload
is the raw byte sequence that the Rust code passes to `std::str::from_utf8`. -/
inductive OutputSegment where
  | progress (text : List Nat)
  | line (text : List Nat)
deriving DecidableEq, Repr

/-- Raw bytes carried by a record. -/
def OutputSegment.text : OutputSegment → List Nat
  | .progress t => t
  | .line t => t

/-- Error outcomes of the embedded program.  `invalidEntry` carries the
`anyhow` message of a failed `ensure!` in `dirname_is_valid_date`;
`decodeFailed` models the `str::Utf8Error` propagated by
`std::str::from_utf8(..)?` in the drain loop; `panicked` models a Rust panic
(an `.unwrap()`/`.expect()` on an error value), which aborts the process
without producing an error value or an exit code. -/
inductive RunErr where
  | invalidEntry (msg : String)
  | decodeFailed
  | panicked
deriving DecidableEq, Repr

/-- Validator for the exact byte sequences accepted by Rust's
`std::str::from_utf8` (RFC 3629 UTF-8: no overlong forms, no surrogate code
points, nothing above U+10FFFF).  Lead bytes `C2–DF` take one continuation
byte, `E0–EF` two, `F0–F4` three, with the usual restricted ranges for the
first continuation byte after `E0`, `ED`, `F0` and `F4`. -/
def utf8Valid : List Nat → Bool
  | [] => true
  | b :: rest =>
    if b < 0x80 then utf8Valid rest
    else if b < 0xC2 then false
    else if b < 0xE0 then
      match rest with
      | c1 :: r => decide (0x80 ≤ c1 ∧ c1 < 0xC0) && utf8Valid r
      | [] => false
    else if b < 0xF0 then
      match rest with
      | c1 :: c2 :: r =>
        decide ((if b = 0xE0 then 0xA0 else 0x80) ≤ c1 ∧
                c1 < (if b = 0xED then 0xA0 else 0xC0) ∧
                0x80 ≤ c2 ∧ c2 < 0xC0) && utf8Valid r
      | _ => false
    else if b < 0xF5 then
      match rest with
      | c1 :: c2 :: c3 :: r =>
        decide ((if b = 0xF0 then 0x90 else 0x80) ≤ c1 ∧
                c1 < (if b = 0xF4 then 0x90 else 0xC0) ∧
                0x80 ≤ c2 ∧ c2 < 0xC0 ∧
                0x80 ≤ c3 ∧ c3 < 0xC0) && utf8Valid r
      | _ => false
    else false

/-- Embedding of `segment.split(|x| *x == 0x0a)` (line 96): split a byte list
on the line-feed byte, keeping empty pieces, one more piece than separators. -/
def splitLF : List Nat → List (List Nat)
  | [] => [[]]
  | b :: rest =>
    if b = 10 then [] :: splitLF rest
    else
      match splitLF rest with
      | c :: cs => (b :: c) :: cs
      | [] => [[b]]

/-- Embedding of the `else` branch of lines 101–106: decode each LF-delimited
piece with `std::str::from_utf8(..)?` and emit it as a `Line` record; the
first undecodable piece aborts with the propagated `Utf8Error`. -/
def decodePieces : List (List Nat) → Except RunErr (List OutputSegment)
  | [] => .ok []
  | p :: rest =>
    if utf8Valid p then
      match decodePieces rest with
      | .error e => .error e
      | .ok segs => .ok (.line p :: segs)
    else .error .decodeFailed

/-- Embedding of the body of the drain loop for one CR-delimited segment
(lines 95–106): split on LF; if there is exactly one piece the whole segment
is a progress update, otherwise every piece is a log line. -/
def processChunk (chunk : List Nat) : Except RunErr (List OutputSegment) :=
  match splitLF chunk with
  | [p] => if utf8Valid p then .ok [.progress p] else .error .decodeFailed
  | parts => decodePieces parts

/-- Embedding of the `while let Some(segment) = reader.next_segment()` loop
(lines 91–107) over the remaining byte stream.  The first argument is the
partial segment accumulated since the last CR (tokio's `read_until` buffer).
A CR ends the current segment; an empty segment triggers the `break`
(line 93), discarding the rest of the stream; end of stream flushes a final
non-empty segment (tokio's `next_segment` returns it without a trailing
delimiter) and an empty one produces no record. -/
def drainAux : List Nat → List Nat → Except RunErr (List OutputSegment)
  | cur, [] => if cur = [] then .ok [] else processChunk cur
  | cur, b :: rest =>
    if b = 13 then
      if cur = [] then .ok []
      else
        match processChunk cur with
        | .error e => .error e
        | .ok segs =>
          match drainAux [] rest with
          | .error e => .error e
          | .ok more => .ok (segs ++ more)
    else drainAux (cur ++ [b]) rest

/-- The full drain of the child's stdout byte stream. -/
def drainLoop (bs : List Nat) : Except RunErr (List OutputSegment) :=
  drainAux [] bs

/-- The CR-delimited segments the drain loop actually reaches: all segments up
to (excluding) the first empty one, or up to end of stream.  Mirrors the
recursion of `drainAux` without the decoding. -/
def chunksUntilEmpty : List Nat → List Nat → List (List Nat)
  | cur, [] => if cur = [] then [] else [cur]
  | cur, b :: rest =>
    if b = 13 then
      if cur = [] then [] else cur :: chunksUntilEmpty [] rest
    else chunksUntilEmpty (cur ++ [b]) rest

/-- Embedding of the tail of `run_rsync` (lines 91–109): drain the stdout
stream, then return the exit status obtained by the concurrently spawned
`child.wait()` task.  `status` is the child's `ExitStatus.code()`: `some c`
for a numeric exit code, `none` for termination by a signal.  A failed decode
makes `run_rsync` return the error before awaiting the join handle. -/
def runModel (bs : List Nat) (status : Option Int) :
    Except RunErr (List OutputSegment × Option Int) :=
  match drainLoop bs with
  | .error e => .error e
  | .ok segs => .ok (segs, status)

/-- Byte sequence of an ASCII string literal (e.g. `b"foo\rbar\nbaz\r"`). -/
def asciiBytes (s : String) : List Nat := s.data.map Char.toNat

instance {ε α : Type} [DecidableEq ε] [DecidableEq α] : DecidableEq (Except ε α) := by
  intro a b
  cases a <;> cases b
  case error.error e f => exact if h : e = f then isTrue (by rw [h]) else isFalse (by
    intro hc; cases hc; exact h rfl)
  case error.ok e x => exact isFalse (by intro h; cases h)
  case ok.error x e => exact isFalse (by intro h; cases h)
  case ok.ok x y => exact if h : x = y then isTrue (by rw [h]) else isFalse (by
    intro hc; cases hc; exact h rfl)

/-! ## CLI configuration and the versioning manager (src/main.rs lines 21–36, 112–148) -/

/-- The parsed command line (struct `Cli`, lines 21–36).  `run_rsync` receives
it by mutable reference; `make_versioned_dir` overwrites `target_dir`. -/
structure CliM where
  source_dir : String
  target_dir : String
  versioned : Bool
  no_exclude_caches : Bool
  exclude_override : Option String
  pass_args : Option String
deriving DecidableEq, Repr

/-- One directory entry under the target root as observed by the scan in
`make_versioned_dir`.  `name` is the entry's file name (assumed valid Unicode;
a non-Unicode name would panic at `into_string().unwrap()`, line 113, which no
claim exercises).  `fileType` is the result of `dir_entry.file_type()`:
`some b` with `b = is_dir`, or `none` when reading the type fails (e.g. a
permission error), which line 115 `.unwrap()`s into a panic. -/
structure DirEntryM where
  name : String
  fileType : Option Bool
deriving DecidableEq, Repr

/-- Embedding of `Path::new(a).join(b)` restricted to the way the source uses
it: `b` is a non-empty relative component (a formatted timestamp), so the join
appends `b` after a `/` unless `a` already ends with the separator. -/
def pathJoin (a b : String) : String :=
  if a = "" then b
  else if a.data.getLastD ' ' = '/' then a ++ b
  else a ++ "/" ++ b

/-!
### chrono's `Local.datetime_from_str(name, "%Y%m%d%H%M")` (line 117)

`dirname_is_valid_date` accepts a name iff this chrono 0.4 call succeeds.  The
format string contains the five numeric items `%Y %m %d %H %M` and chrono's
`format::parse` handles a numeric item as follows (chrono `src/format/parse.rs`
and `src/format/scan.rs`):

* leading Unicode whitespace is skipped before every numeric item (we model
  the ASCII subset, which covers all inputs used here);
* `%Y` is signed: an explicit `-`/`+` is followed by an unlimited greedy run
  of ASCII digits; without a sign it consumes **one to four** digits greedily;
* `%m %d %H %M` consume **one or two** digits greedily;
* the whole input must be consumed (`TOO_LONG` otherwise);
* the parsed fields must form a valid proleptic-Gregorian date and a valid
  time (month 1–12, day within the month incl. leap years, hour ≤ 23,
  minute ≤ 59; seconds may be omitted and default to 0; years outside
  chrono's `NaiveDate` range ±262143/−262144 are rejected, as are years whose
  digit run overflows).

Consequently the accepted names are *not* exactly the 12-digit
`YYYYMMDDHHMM` strings: e.g. an 11-digit name (single-digit minute) or a name
with leading whitespace is accepted too.  The conversion to a `Local`
datetime can additionally fail for wall-clock times skipped or repeated by a
DST transition; we model a fixed-offset local timezone, where it never fails.
-/

/-- Greedily take up to `max` leading ASCII digits (chrono `scan::number`'s
windowing). Returns the digits and the remaining characters. -/
def spanDigits : Nat → List Char → List Char × List Char
  | 0, cs => ([], cs)
  | _ + 1, [] => ([], [])
  | max + 1, c :: rest =>
    if c.isDigit then
      let (ds, r) := spanDigits max rest
      (c :: ds, r)
    else ([], c :: rest)

/-- Numeric value of a digit run (most significant first). -/
def digitsToNat (ds : List Char) : Nat :=
  ds.foldl (fun a c => a * 10 + (c.toNat - 48)) 0

/-- chrono `scan::number(s, 1, max)`: at least one digit, at most `max`. -/
def scanNumber (max : Nat) (cs : List Char) : Option (Nat × List Char) :=
  match spanDigits max cs with
  | ([], _) => none
  | (ds, rest) => some (digitsToNat ds, rest)

/-- Whitespace skipped before a numeric item. -/
def skipWs (cs : List Char) : List Char := cs.dropWhile (fun c => c.isWhitespace)

/-- chrono parsing of the signed `%Y` item. -/
def parseYearItem (cs0 : List Char) : Option (Int × List Char) :=
  let cs := skipWs cs0
  match cs with
  | '-' :: rest =>
    match scanNumber rest.length rest with
    | none => none
    | some (v, r) => some (-(v : Int), r)
  | '+' :: rest =>
    match scanNumber rest.length rest with
    | none => none
    | some (v, r) => some ((v : Int), r)
  | _ =>
    match scanNumber 4 cs with
    | none => none
    | some (v, r) => some ((v : Int), r)

/-- chrono parsing of an unsigned two-digit-wide item (`%m %d %H %M`). -/
def parseNum2Item (cs0 : List Char) : Option (Nat × List Char) :=
  scanNumber 2 (skipWs cs0)

/-- Field extraction of `parse(&mut parsed, s, StrftimeItems::new("%Y%m%d%H%M"))`:
year, month, day, hour, minute, requiring the input to be fully consumed. -/
def chronoParseFields (s : String) : Option (Int × Nat × Nat × Nat × Nat) :=
  match parseYearItem s.data with
  | none => none
  | some (y, cs1) =>
    match parseNum2Item cs1 with
    | none => none
    | some (mo, cs2) =>
      match parseNum2Item cs2 with
      | none => none
      | some (d, cs3) =>
        match parseNum2Item cs3 with
        | none => none
        | some (h, cs4) =>
          match parseNum2Item cs4 with
          | none => none
          | some (mi, cs5) =>
            if cs5 = [] then some (y, mo, d, h, mi) else none

/-- Proleptic-Gregorian leap year, on the (possibly negative) parsed year. -/
def isLeapYearI (y : Int) : Bool :=
  (y % 4 == 0 && y % 100 != 0) || y % 400 == 0

/-- Days in a month for the parsed (possibly negative) year. -/
def chronoDaysInMonth (y : Int) (m : Nat) : Nat :=
  if m = 2 then (if isLeapYearI y then 29 else 28)
  else if m = 4 ∨ m = 6 ∨ m = 9 ∨ m = 11 then 30 else 31

/-- Whether `Local.datetime_from_str(s, "%Y%m%d%H%M").is_ok()` (line 117),
under a fixed-offset local timezone. -/
def chronoParseOk (s : String) : Bool :=
  match chronoParseFields s with
  | none => false
  | some (y, mo, d, h, mi) =>
    decide (-262144 ≤ y) && decide (y ≤ 262143) &&
    decide (1 ≤ mo) && decide (mo ≤ 12) &&
    decide (1 ≤ d) && decide (d ≤ chronoDaysInMonth y mo) &&
    decide (h ≤ 23) && decide (mi ≤ 59)

/-- Embedding of `dirname_is_valid_date` (lines 112–121): reading the file
type `.unwrap()`s (panics) on failure; then `ensure!` demands a directory,
then a chrono-parseable name, each failure carrying the `format_err!` message;
on success the entry name is returned. -/
def dirname_is_valid_date (e : DirEntryM) : Except RunErr String :=
  match e.fileType with
  | none => .error .panicked
  | some isDir =>
    if isDir then
      if chronoParseOk e.name then .ok e.name
      else .error (.invalidEntry
        ("Directory entry name " ++ e.name ++ " is not in datetime format of YYYYmmddHHMM"))
    else .error (.invalidEntry ("Directory entry " ++ e.name ++ " is not a directory"))

/-- Embedding of `read_dir(..).map(|d| dirname_is_valid_date(d?)).try_collect()`
(lines 126–128): validate entries left to right, stopping at the first
failure. -/
def collectValid : List DirEntryM → Except RunErr (List String)
  | [] => .ok []
  | e :: rest =>
    match dirname_is_valid_date e with
    | .error err => .error err
    | .ok name =>
      match collectValid rest with
      | .error err => .error err
      | .ok names => .ok (name :: names)

/-- A directory entry that `dirname_is_valid_date` accepts: a readable
directory whose name chrono-parses under `%Y%m%d%H%M`. -/
def entryOk (e : DirEntryM) : Prop :=
  e.fileType = some true ∧ chronoParseOk e.name = true

instance (e : DirEntryM) : Decidable (entryOk e) := by
  unfold entryOk; infer_instance

/-- Lexicographic-by-code-point comparison of character lists.  Rust's `Ord`
for `String` compares UTF-8 bytes; byte order and code-point order coincide
for UTF-8, so this is the order `Vec::<String>::sort` uses. -/
def charListLt : List Char → List Char → Bool
  | _, [] => false
  | [], _ :: _ => true
  | a :: as, b :: bs =>
    if a.toNat < b.toNat then true
    else if b.toNat < a.toNat then false
    else charListLt as bs

/-- Strict string order used by the snapshot sort. -/
def strLt (a b : String) : Bool := charListLt a.data b.data

/-- The matching non-strict order. -/
def strLe (a b : String) : Bool := ! strLt b a

/-- Insert into a `strLe`-sorted list, keeping it sorted. -/
def insertSorted (x : String) : List String → List String
  | [] => [x]
  | y :: ys => if strLe x y then x :: y :: ys else y :: insertSorted x ys

/-- Embedding of `dirs.sort()` (line 140).  Insertion sort produces the
`strLe`-sorted permutation of the input, which is the unique sorted
permutation under this total antisymmetric order, hence the exact result of
`Vec::sort`. -/
def sortStrings (l : List String) : List String := l.foldr insertSorted []

/-- The part of `make_versioned_dir` after the scan succeeded (lines 131–147):
replace `cli.target_dir` by `targetRoot/now_dir`, and, only when *more than
one* validated snapshot exists, emit the single
`--link-dest=<targetRoot>/<latest>` argument, where `<latest>` is the last
element of the sorted snapshot list (`pop` after `sort`; the `--link-dest`
path is built from the *original* target root saved before the
replacement). -/
def mvd_body (dirs : List String) (now_dir : String) (cli : CliM) : CliM × List String :=
  let target_dir := cli.target_dir
  let cli2 := { cli with target_dir := pathJoin target_dir now_dir }
  if dirs.length > 1 then
    (cli2, ["--link-dest=" ++ pathJoin target_dir ((sortStrings dirs).getLastD "")])
  else
    (cli2, [])

/-- Embedding of `make_versioned_dir` (lines 123–148): validate all entries of
the target root (any failure aborts `run_rsync` before rsync is spawned),
then rewrite the target and compute the link reference (`mvd_body`). -/
def make_versioned_dir (entries : List DirEntryM) (now_dir : String) (cli : CliM) :
    Except RunErr (CliM × List String) :=
  match collectValid entries with
  | .error e => .error e
  | .ok dirs => .ok (mvd_body dirs now_dir cli)

/-! ## Argument construction of `run_rsync` (lines 42–64) and `main` (152–161) -/

/-- Rust's `str::split(sep)` for a one-character separator: split on every
occurrence, keeping empty pieces (one more piece than separators). -/
def splitCharList (sep : Char) : List Char → List (List Char)
  | [] => [[]]
  | c :: rest =>
    if c = sep then [] :: splitCharList sep rest
    else
      match splitCharList sep rest with
      | p :: ps => (c :: p) :: ps
      | [] => [[c]]

/-- `str::split` lifted to `String`. -/
def splitChar (sep : Char) (s : String) : List String :=
  (splitCharList sep s.data).map (fun cs => String.mk cs)

/-- The fixed base arguments (line 42). -/
def baseArgs : List String := ["-axP", "--stats"]

/-- Embedding of the `--exclude` pair loop over override patterns
(lines 54–56). -/
def excludePairs : List String → List String
  | [] => []
  | e :: rest => "--exclude" :: e :: excludePairs rest

/-- The cache-exclusion arguments appended unless disabled (lines 49–51). -/
def cacheExcludeArgs (cli : CliM) : List String :=
  if cli.no_exclude_caches then []
  else ["--exclude", "**Cache**", "--exclude", "**cache**"]

/-- The override exclusions: the comma-separated list, one `--exclude` pair
per entry (lines 53–57). -/
def overrideArgs (cli : CliM) : List String :=
  match cli.exclude_override with
  | none => []
  | some s => excludePairs (splitChar ',' s)

/-- The pass-through arguments: split on single spaces (lines 59–61). -/
def passThroughArgs (cli : CliM) : List String :=
  match cli.pass_args with
  | none => []
  | some s => splitChar ' ' s

/-- The successive `extend`/`push` calls of `run_rsync` on `args`
(lines 42–64), once the (possibly rewritten) configuration `cli2` and the
versioning arguments `other_args` are known; `versioned` is the original
flag guarding the `extend` of `other_args`. -/
def rsync_args_body (cli2 : CliM) (versioned : Bool) (other_args : List String) :
    List String :=
  let args := ["-axP", "--stats"]
  let args := if versioned then args ++ other_args else args
  let args := if ! cli2.no_exclude_caches then
      args ++ ["--exclude", "**Cache**", "--exclude", "**cache**"]
    else args
  let args := match cli2.exclude_override with
    | some s => args ++ excludePairs (splitChar ',' s)
    | none => args
  let args := match cli2.pass_args with
    | some s => args ++ splitChar ' ' s
    | none => args
  args ++ [cli2.source_dir, cli2.target_dir]

/-- Embedding of the argument construction of `run_rsync` (lines 42–64).
When `versioned` is set, `make_versioned_dir` first rewrites
`cli.target_dir` and fills `other_args`; its failure aborts before any
argument list is built (and before rsync is spawned). -/
def run_rsync_args (cli : CliM) (entries : List DirEntryM) (now_dir : String) :
    Except RunErr (List String) :=
  match (if cli.versioned then make_versioned_dir entries now_dir cli
         else .ok (cli, [])) with
  | .error e => .error e
  | .ok (cli2, other_args) => .ok (rsync_args_body cli2 cli.versioned other_args)

/-- Embedding of the exit-status mapping in `main` (lines 157–160):
`ExitCode::from(exit_status.code().unwrap() as u8)`.  The child's status is
`some c` (numeric exit code) or `none` (terminated by a signal); in the
latter case `.unwrap()` panics, so no exit code at all is produced
(result `none`).  `as u8` truncates the `i32` code to its low 8 bits. -/
def main_exit_code (status : Option Int) : Option Nat :=
  match status with
  | some c => some ((c % 256).toNat)
  | none => none

/-! ## Chronology of 12-digit timestamps (for the ordering claim) -/

/-- Value of a fixed-width digit string, most significant digit first. -/
def digitsVal : List Char → Nat
  | [] => 0
  | c :: t => (c.toNat - 48) * 10 ^ t.length + digitsVal t

/-- The 12-digit numeric value of a timestamp name. -/
def tsVal (s : String) : Nat := digitsVal s.data

/-- Year field of a 12-digit timestamp name. -/
def tsYear (s : String) : Nat := tsVal s / 100000000

/-- Month field. -/
def tsMonth (s : String) : Nat := tsVal s / 1000000 % 100

/-- Day field. -/
def tsDay (s : String) : Nat := tsVal s / 10000 % 100

/-- Hour field. -/
def tsHour (s : String) : Nat := tsVal s / 100 % 100

/-- Minute field. -/
def tsMin (s : String) : Nat := tsVal s % 100

/-- Gregorian leap year (non-negative year). -/
def isLeapYear (y : Nat) : Bool := decide ((y % 4 = 0 ∧ ¬ y % 100 = 0) ∨ y % 400 = 0)

/-- Days in a month. -/
def daysInMonth (y m : Nat) : Nat :=
  if m = 2 then (if isLeapYear y then 29 else 28)
  else if m = 4 ∨ m = 6 ∨ m = 9 ∨ m = 11 then 30 else 31

/-- Days in a year. -/
def daysInYear (y : Nat) : Nat := if isLeapYear y then 366 else 365

/-- Days of the year strictly before month `m` (1-based). -/
def daysBeforeMonth (y m : Nat) : Nat :=
  let feb := if isLeapYear y then 29 else 28
  match m with
  | 1 => 0
  | 2 => 31
  | 3 => 31 + feb
  | 4 => 62 + feb
  | 5 => 92 + feb
  | 6 => 123 + feb
  | 7 => 153 + feb
  | 8 => 184 + feb
  | 9 => 215 + feb
  | 10 => 245 + feb
  | 11 => 276 + feb
  | 12 => 306 + feb
  | _ => 0

/-- Days strictly before year `y` in the proleptic Gregorian calendar,
counting from year 0 (closed form: 365 per year plus one per leap year
among `0, …, y-1`). -/
def daysBeforeYear (y : Nat) : Nat :=
  365 * y + (y + 3) / 4 - (y + 99) / 100 + (y + 399) / 400

/-- A syntactically and calendrically valid 12-digit `YYYYMMDDHHMM` name:
exactly twelve ASCII digits (code points 48–57) whose fields form a real
local date and time. -/
def Valid12 (s : String) : Prop :=
  s.data.length = 12 ∧ (∀ c ∈ s.data, 48 ≤ c.toNat ∧ c.toNat ≤ 57) ∧
  1 ≤ tsMonth s ∧ tsMonth s ≤ 12 ∧
  1 ≤ tsDay s ∧ tsDay s ≤ daysInMonth (tsYear s) (tsMonth s) ∧
  tsHour s ≤ 23 ∧ tsMin s ≤ 59

instance (s : String) : Decidable (Valid12 s) := by
  unfold Valid12; infer_instance

/-- The instant a valid timestamp denotes, as minutes elapsed since
0000-01-01 00:00 (local time, proleptic Gregorian calendar). -/
def toMinutes (s : String) : Nat :=
  ((daysBeforeYear (tsYear s) + daysBeforeMonth (tsYear s) (tsMonth s) +
      (tsDay s - 1)) * 24 + tsHour s) * 60 + tsMin s

/-- Propositional form of `daysInYear`. -/
theorem daysInYear_eq (y : Nat) :
    daysInYear y = if ((y % 4 = 0 ∧ ¬ y % 100 = 0) ∨ y % 400 = 0) then 366 else 365 := by
  unfold daysInYear isLeapYear
  by_cases hl : ((y % 4 = 0 ∧ ¬ y % 100 = 0) ∨ y % 400 = 0)
  · rw [if_pos (decide_eq_true_eq.mpr hl), if_pos hl]
  · rw [if_neg (fun hh => hl (decide_eq_true_eq.mp hh)), if_neg hl]

set_option maxHeartbeats 1000000 in
/-- The closed form satisfies the expected recurrence. -/
theorem daysBeforeYear_succ (y : Nat) :
    daysBeforeYear (y + 1) = daysBeforeYear y + daysInYear y := by
  rw [daysInYear_eq]
  unfold daysBeforeYear
  by_cases hl : ((y % 4 = 0 ∧ ¬ y % 100 = 0) ∨ y % 400 = 0)
  · rw [if_pos hl]; omega
  · rw [if_neg hl]; omega

/-! ## Lemmas about the stream demultiplexer -/

theorem splitLF_ne_nil (chunk : List Nat) : splitLF chunk ≠ [] := by
  induction chunk with
  | nil => simp [splitLF]
  | cons b rest ih =>
    unfold splitLF
    by_cases hb : b = 10
    · simp [hb]
    · rw [if_neg hb]
      rcases h : splitLF rest with _ | ⟨c, cs⟩
      · simp
      · simp

theorem splitLF_eq_single_of_no_lf {chunk : List Nat} (h : 10 ∉ chunk) :
    splitLF chunk = [chunk] := by
  induction chunk with
  | nil => rfl
  | cons b rest ih =>
    have hb : b ≠ 10 := fun hc => h (hc ▸ List.mem_cons_self b rest)
    have hr : 10 ∉ rest := fun hc => h (List.mem_cons_of_mem b hc)
    unfold splitLF
    rw [if_neg hb, ih hr]

theorem splitLF_length_ge_two_of_lf {chunk : List Nat} (h : 10 ∈ chunk) :
    2 ≤ (splitLF chunk).length := by
  induction chunk with
  | nil => cases h
  | cons b rest ih =>
    unfold splitLF
    by_cases hb : b = 10
    · rw [if_pos hb]
      have := splitLF_ne_nil rest
      cases hsp : splitLF rest with
      | nil => exact absurd hsp this
      | cons c cs => simp
    · rw [if_neg hb]
      have hr : 10 ∈ rest := by
        rcases List.mem_cons.mp h with h1 | h2
        · exact absurd h1.symm hb
        · exact h2
      rcases hsp : splitLF rest with _ | ⟨c, cs⟩
      · exact absurd hsp (splitLF_ne_nil rest)
      · have := ih hr
        rw [hsp] at this
        simpa using this

theorem processChunk_of_no_lf {chunk : List Nat} (h : 10 ∉ chunk)
    (hv : utf8Valid chunk = true) :
    processChunk chunk = .ok [.progress chunk] := by
  unfold processChunk
  rw [splitLF_eq_single_of_no_lf h]
  simp [hv]

theorem decodePieces_of_valid {parts : List (List Nat)}
    (hv : ∀ p ∈ parts, utf8Valid p = true) :
    decodePieces parts = .ok (parts.map OutputSegment.line) := by
  induction parts with
  | nil => rfl
  | cons p rest ih =>
    have hp : utf8Valid p = true := hv p (List.mem_cons_self p rest)
    have hr : ∀ q ∈ rest, utf8Valid q = true := fun q hq => hv q (List.mem_cons_of_mem p hq)
    unfold decodePieces
    rw [hp, ih hr]
    rfl

theorem processChunk_eq_decode {chunk : List Nat}
    (h : (splitLF chunk).length ≠ 1) :
    processChunk chunk = decodePieces (splitLF chunk) := by
  unfold processChunk
  rcases hsp : splitLF chunk with _ | ⟨p, _ | ⟨q, rest⟩⟩
  · rfl
  · rw [hsp] at h; simp at h
  · rfl

theorem processChunk_of_lf {chunk : List Nat} (h : 10 ∈ chunk)
    (hv : ∀ p ∈ splitLF chunk, utf8Valid p = true) :
    processChunk chunk = .ok ((splitLF chunk).map OutputSegment.line) := by
  have h2 := splitLF_length_ge_two_of_lf h
  rw [processChunk_eq_decode (by omega), decodePieces_of_valid hv]

theorem drainAux_append_noCR (pre : List Nat) :
    ∀ cur rest, (∀ b ∈ pre, b ≠ 13) →
      drainAux cur (pre ++ 13 :: rest) = drainAux (cur ++ pre) (13 :: rest) := by
  induction pre with
  | nil => intro cur rest _; simp
  | cons b pre' ih =>
    intro cur rest hno
    have hb : b ≠ 13 := hno b (List.mem_cons_self b pre')
    have hpre : ∀ x ∈ pre', x ≠ 13 := fun x hx => hno x (List.mem_cons_of_mem b hx)
    have step : drainAux cur ((b :: pre') ++ 13 :: rest) =
        drainAux (cur ++ [b]) (pre' ++ 13 :: rest) := by
      show drainAux cur (b :: (pre' ++ 13 :: rest)) = _
      simp only [drainAux]
      rw [if_neg hb]
    rw [step, ih (cur ++ [b]) rest hpre, List.append_assoc]
    rfl

theorem decodePieces_error_eq {parts : List (List Nat)} {e : RunErr}
    (h : decodePieces parts = .error e) : e = .decodeFailed := by
  induction parts with
  | nil => cases h
  | cons p rest ih =>
    unfold decodePieces at h
    by_cases hp : utf8Valid p = true
    · rw [if_pos hp] at h
      rcases hd : decodePieces rest with f | segs
      · rw [hd] at h; cases h; exact ih hd
      · rw [hd] at h; cases h
    · rw [if_neg hp] at h; cases h; rfl

theorem bool_eq_false {b : Bool} (h : ¬ b = true) : b = false := by
  cases b
  · rfl
  · exact absurd rfl h

theorem processChunk_single_eq {chunk p : List Nat} (h : splitLF chunk = [p]) :
    processChunk chunk =
      if utf8Valid p = true then .ok [.progress p] else .error .decodeFailed := by
  unfold processChunk
  rw [h]

theorem decodePieces_error_iff (parts : List (List Nat)) :
    decodePieces parts = .error .decodeFailed ↔
      ∃ p ∈ parts, utf8Valid p = false := by
  induction parts with
  | nil =>
    constructor
    · intro h; cases h
    · intro h; rcases h with ⟨p, hp, _⟩; cases hp
  | cons p rest ih =>
    constructor
    · intro h
      unfold decodePieces at h
      by_cases hp : utf8Valid p = true
      · rw [if_pos hp] at h
        rcases hd : decodePieces rest with f | segs <;> rw [hd] at h
        · cases h
          rcases ih.mp hd with ⟨q, hq, hv⟩
          exact ⟨q, List.mem_cons_of_mem p hq, hv⟩
        · cases h
      · exact ⟨p, List.mem_cons_self p rest, bool_eq_false hp⟩
    · intro h
      rcases h with ⟨q, hq, hv⟩
      unfold decodePieces
      by_cases hp : utf8Valid p = true
      · rw [if_pos hp]
        have hqr : q ∈ rest := by
          rcases List.mem_cons.mp hq with h1 | h2
          · subst h1; rw [hv] at hp; cases hp
          · exact h2
        rw [ih.mpr ⟨q, hqr, hv⟩]
      · rw [if_neg hp]

theorem processChunk_error_eq {chunk : List Nat} {e : RunErr}
    (h : processChunk chunk = .error e) : e = .decodeFailed := by
  rcases hsp : splitLF chunk with _ | ⟨p, _ | ⟨q, rest⟩⟩
  · exact absurd hsp (splitLF_ne_nil chunk)
  · rw [processChunk_single_eq hsp] at h
    by_cases hp : utf8Valid p = true
    · rw [if_pos hp] at h; cases h
    · rw [if_neg hp] at h; cases h; rfl
  · rw [processChunk_eq_decode (by rw [hsp]; simp)] at h
    exact decodePieces_error_eq h

theorem processChunk_error_iff (chunk : List Nat) :
    processChunk chunk = .error .decodeFailed ↔
      ∃ p ∈ splitLF chunk, utf8Valid p = false := by
  rcases hsp : splitLF chunk with _ | ⟨p, _ | ⟨q, rest⟩⟩
  · exact absurd hsp (splitLF_ne_nil chunk)
  · rw [processChunk_single_eq hsp]
    by_cases hp : utf8Valid p = true
    · rw [if_pos hp]
      constructor
      · intro h; cases h
      · intro h
        rcases h with ⟨q, hq, hv⟩
        rcases List.mem_singleton.mp hq with rfl
        rw [hv] at hp; cases hp
    · rw [if_neg hp]
      constructor
      · intro _
        exact ⟨p, List.mem_singleton.mpr rfl, bool_eq_false hp⟩
      · intro _; rfl
  · rw [processChunk_eq_decode (by rw [hsp]; simp), hsp]
    exact decodePieces_error_iff (p :: q :: rest)

theorem decodePieces_ok_valid {parts : List (List Nat)} {segs : List OutputSegment}
    (h : decodePieces parts = .ok segs) :
    ∀ s ∈ segs, utf8Valid s.text = true := by
  induction parts generalizing segs with
  | nil => cases h; intro s hs; cases hs
  | cons p rest ih =>
    unfold decodePieces at h
    by_cases hp : utf8Valid p = true
    · rw [if_pos hp] at h
      rcases hd : decodePieces rest with f | segs' <;> rw [hd] at h
      · cases h
      · cases h
        intro s hs
        rcases List.mem_cons.mp hs with h1 | h2
        · subst h1; exact hp
        · exact ih hd s h2
    · rw [if_neg hp] at h; cases h

theorem processChunk_ok_valid {chunk : List Nat} {segs : List OutputSegment}
    (h : processChunk chunk = .ok segs) :
    ∀ s ∈ segs, utf8Valid s.text = true := by
  rcases hsp : splitLF chunk with _ | ⟨p, _ | ⟨q, rest⟩⟩
  · exact absurd hsp (splitLF_ne_nil chunk)
  · rw [processChunk_single_eq hsp] at h
    by_cases hp : utf8Valid p = true
    · rw [if_pos hp] at h; cases h
      intro s hs
      rcases List.mem_singleton.mp hs with rfl
      exact hp
    · rw [if_neg hp] at h; cases h
  · rw [processChunk_eq_decode (by rw [hsp]; simp)] at h
    exact decodePieces_ok_valid h

theorem drainAux_ok_valid :
    ∀ (bs cur : List Nat) (segs : List OutputSegment),
      drainAux cur bs = .ok segs → ∀ s ∈ segs, utf8Valid s.text = true := by
  intro bs
  induction bs with
  | nil =>
    intro cur segs h
    unfold drainAux at h
    by_cases hc : cur = []
    · rw [if_pos hc] at h; cases h; intro s hs; cases hs
    · rw [if_neg hc] at h; exact processChunk_ok_valid h
  | cons b rest ih =>
    intro cur segs h
    unfold drainAux at h
    by_cases hb : b = 13
    · rw [if_pos hb] at h
      by_cases hc : cur = []
      · rw [if_pos hc] at h; cases h; intro s hs; cases hs
      · rw [if_neg hc] at h
        rcases hpc : processChunk cur with e | segs1 <;> rw [hpc] at h
        · cases h
        · rcases hd : drainAux [] rest with e | segs2 <;> rw [hd] at h
          · cases h
          · cases h
            intro s hs
            rcases List.mem_append.mp hs with h1 | h2
            · exact processChunk_ok_valid hpc s h1
            · exact ih [] segs2 hd s h2
    · rw [if_neg hb] at h
      exact ih (cur ++ [b]) segs h

theorem drainAux_error_eq :
    ∀ (bs cur : List Nat) (e : RunErr),
      drainAux cur bs = .error e → e = .decodeFailed := by
  intro bs
  induction bs with
  | nil =>
    intro cur e h
    unfold drainAux at h
    by_cases hc : cur = []
    · rw [if_pos hc] at h; cases h
    · rw [if_neg hc] at h; exact processChunk_error_eq h
  | cons b rest ih =>
    intro cur e h
    unfold drainAux at h
    by_cases hb : b = 13
    · rw [if_pos hb] at h
      by_cases hc : cur = []
      · rw [if_pos hc] at h; cases h
      · rw [if_neg hc] at h
        rcases hpc : processChunk cur with f | segs1 <;> rw [hpc] at h
        · cases h; exact processChunk_error_eq hpc
        · rcases hd : drainAux [] rest with f | segs2 <;> rw [hd] at h
          · cases h; exact ih [] _ hd
          · cases h
    · rw [if_neg hb] at h
      exact ih (cur ++ [b]) e h

theorem drainAux_error_iff :
    ∀ (bs cur : List Nat),
      drainAux cur bs = .error .decodeFailed ↔
        ∃ c ∈ chunksUntilEmpty cur bs, ∃ p ∈ splitLF c, utf8Valid p = false := by
  intro bs
  induction bs with
  | nil =>
    intro cur
    unfold drainAux chunksUntilEmpty
    by_cases hc : cur = []
    · rw [if_pos hc, if_pos hc]
      constructor
      · intro h; cases h
      · intro h; rcases h with ⟨c, hc', _⟩; cases hc'
    · rw [if_neg hc, if_neg hc]
      rw [processChunk_error_iff]
      constructor
      · intro h
        rcases h with ⟨p, hp, hv⟩
        exact ⟨cur, List.mem_singleton.mpr rfl, p, hp, hv⟩
      · intro h
        rcases h with ⟨c, hcm, p, hp, hv⟩
        rcases List.mem_singleton.mp hcm with rfl
        exact ⟨p, hp, hv⟩
  | cons b rest ih =>
    intro cur
    unfold drainAux chunksUntilEmpty
    by_cases hb : b = 13
    · rw [if_pos hb, if_pos hb]
      by_cases hc : cur = []
      · rw [if_pos hc, if_pos hc]
        constructor
        · intro h; cases h
        · intro h; rcases h with ⟨c, hc', _⟩; cases hc'
      · rw [if_neg hc, if_neg hc]
        rcases hpc : processChunk cur with e | segs1
        · have he : e = RunErr.decodeFailed := processChunk_error_eq hpc
          subst he
          constructor
          · intro _
            rcases (processChunk_error_iff cur).mp hpc with ⟨p, hp, hv⟩
            exact ⟨cur, List.mem_cons_self _ _, p, hp, hv⟩
          · intro _; rfl
        · have hnoerr : ¬ ∃ p ∈ splitLF cur, utf8Valid p = false := by
            intro hcon
            have hpe := (processChunk_error_iff cur).mpr hcon
            rw [hpe] at hpc; cases hpc
          rcases hd : drainAux [] rest with e | segs2
          · have he : e = RunErr.decodeFailed := drainAux_error_eq rest [] e hd
            subst he
            constructor
            · intro _
              rcases (ih []).mp hd with ⟨c, hcm, p, hp, hv⟩
              exact ⟨c, List.mem_cons_of_mem cur hcm, p, hp, hv⟩
            · intro _; rfl
          · constructor
            · intro h; cases h
            · intro h
              rcases h with ⟨c, hcm, p, hp, hv⟩
              rcases List.mem_cons.mp hcm with h1 | h2
              · subst h1; exact absurd ⟨p, hp, hv⟩ hnoerr
              · have := (ih []).mpr ⟨c, h2, p, hp, hv⟩
                rw [this] at hd; cases hd
    · rw [if_neg hb, if_neg hb]
      exact ih (cur ++ [b])

/-- One-step equation of the drain loop at a carriage return. -/
theorem drainAux_cr (cur rest : List Nat) :
    drainAux cur (13 :: rest) =
      if cur = [] then .ok [] else
        match processChunk cur with
        | .error e => .error e
        | .ok segs =>
          match drainAux [] rest with
          | .error e => .error e
          | .ok more => .ok (segs ++ more) := by
  simp only [drainAux]
  rw [if_pos trivial]

/-! ## Claim theorems for the stream demultiplexer and the exit-code mapping -/

/-- Claim C3: the demultiplexer splits the byte stream on `0x0D`; a chunk
with no `0x0A` becomes a single `ProgressUpdate`, a chunk containing `0x0A`
is split on `0x0A` into one `LogLine` per piece; the byte stream
`b"foo\rbar\nbaz\r"` yields exactly `ProgressUpdate("foo")`, then the
`LogLine`s `"bar"` and `"baz"`, with no record for the empty terminal chunk
(tokio's splitter emits no segment after a trailing delimiter). -/
theorem C3_demultiplexer :
    (∀ chunk : List Nat, chunk ≠ [] → 10 ∉ chunk → utf8Valid chunk = true →
        processChunk chunk = .ok [.progress chunk]) ∧
    (∀ chunk : List Nat, 10 ∈ chunk → (∀ p ∈ splitLF chunk, utf8Valid p = true) →
        processChunk chunk = .ok ((splitLF chunk).map OutputSegment.line)) ∧
    drainLoop (asciiBytes "foo\rbar\nbaz\r") =
      .ok [.progress (asciiBytes "foo"), .line (asciiBytes "bar"),
           .line (asciiBytes "baz")] :=
  ⟨fun _ _ h hv => processChunk_of_no_lf h hv,
   fun _ h hv => processChunk_of_lf h hv,
   by decide⟩

/-- Witness for C3 at concrete chunks. -/
theorem C3_demultiplexer_witness :
    processChunk (asciiBytes "foo") = .ok [.progress (asciiBytes "foo")] ∧
    processChunk (asciiBytes "bar\nbaz") =
      .ok ((splitLF (asciiBytes "bar\nbaz")).map OutputSegment.line) :=
  ⟨C3_demultiplexer.1 (asciiBytes "foo") (by decide) (by decide) (by decide),
   C3_demultiplexer.2.1 (asciiBytes "bar\nbaz") (by decide) (by decide)⟩

/-- Claim C8: every text the demultiplexer produces passed strict UTF-8
validation, and the drain aborts with the decode error exactly when some
chunk it reaches (before any empty chunk) has an LF-piece that is not valid
UTF-8; the only error the drain ever produces is the decode error — there is
no replacement-character or best-effort fallback. -/
theorem C8_utf8_strict :
    (∀ (bs : List Nat) (segs : List OutputSegment), drainLoop bs = .ok segs →
        ∀ s ∈ segs, utf8Valid s.text = true) ∧
    (∀ bs : List Nat, drainLoop bs = .error RunErr.decodeFailed ↔
        ∃ c ∈ chunksUntilEmpty [] bs, ∃ p ∈ splitLF c, utf8Valid p = false) ∧
    (∀ (bs : List Nat) (e : RunErr), drainLoop bs = .error e → e = RunErr.decodeFailed) :=
  ⟨fun bs segs h => drainAux_ok_valid bs [] segs h,
   fun bs => drainAux_error_iff bs [],
   fun bs e h => drainAux_error_eq bs [] e h⟩

/-- Witness for C8: the non-UTF-8 byte `0xFF` aborts the drain, and a decoded
segment's text is valid UTF-8. -/
theorem C8_utf8_strict_witness :
    drainLoop [255] = .error RunErr.decodeFailed ∧
    utf8Valid (OutputSegment.progress (asciiBytes "ok")).text = true :=
  ⟨(C8_utf8_strict.2.1 [255]).mpr ⟨[255], by decide, [255], by decide, by decide⟩,
   C8_utf8_strict.1 (asciiBytes "ok\r") [.progress (asciiBytes "ok")] (by decide)
     (.progress (asciiBytes "ok")) (by decide)⟩

/-- Claim C10: an empty CR-delimited chunk (a stream starting with `0x0D`, or
two consecutive `0x0D` bytes) makes the drain loop `break`: no record is
produced for any later bytes, while the supervisor still returns the awaited
child exit status as the run's result. -/
theorem C10_empty_chunk_stops :
    (∀ (tail : List Nat) (status : Option Int),
        runModel (13 :: tail) status = .ok ([], status)) ∧
    (∀ (pre post : List Nat) (status : Option Int),
        pre ≠ [] → (∀ b ∈ pre, b ≠ 13) → 10 ∉ pre → utf8Valid pre = true →
        runModel (pre ++ 13 :: 13 :: post) status = .ok ([.progress pre], status)) := by
  constructor
  · intro tail status; rfl
  · intro pre post status hne hno hlf hv
    have hdrain : drainLoop (pre ++ 13 :: 13 :: post) = .ok [.progress pre] := by
      unfold drainLoop
      rw [drainAux_append_noCR pre [] (13 :: post) hno,
          show ([] : List Nat) ++ pre = pre from rfl,
          drainAux_cr pre (13 :: post), if_neg hne,
          processChunk_of_no_lf hlf hv]
      rfl
    unfold runModel
    rw [hdrain]

/-- Witness for C10 at concrete streams. -/
theorem C10_empty_chunk_stops_witness :
    runModel (13 :: asciiBytes "later") (some 5) = .ok ([], some 5) ∧
    runModel (asciiBytes "p" ++ 13 :: 13 :: asciiBytes "zzz") (some 7) =
      .ok ([.progress (asciiBytes "p")], some 7) :=
  ⟨C10_empty_chunk_stops.1 (asciiBytes "later") (some 5),
   C10_empty_chunk_stops.2 (asciiBytes "p") (asciiBytes "zzz") (some 7)
     (by decide) (by decide) (by decide) (by decide)⟩

/-- Claim C2 (evaluation): `main` maps `Ok(exit_status)` through
`exit_status.code().unwrap() as u8`.  With a numeric code the code value is
propagated as the process exit code, but when the child was terminated by a
signal (`code()` is `None`, modelled as `none`) the `unwrap()` panics — no
abnormal-exit sentinel code is produced, contradicting the claimed
sentinel behaviour. -/
theorem C2_exit_status_eval :
    main_exit_code none = none ∧
    main_exit_code (some 0) = some 0 ∧
    main_exit_code (some 23) = some 23 :=
  ⟨rfl, rfl, rfl⟩

/-! ## Order facts about the snapshot-name comparison and the sort -/

theorem charListLt_irrefl : ∀ l : List Char, charListLt l l = false := by
  intro l
  induction l with
  | nil => rfl
  | cons a as ih => simp [charListLt, ih]

theorem charListLt_asymm : ∀ l1 l2 : List Char,
    charListLt l1 l2 = true → charListLt l2 l1 = false := by
  intro l1
  induction l1 with
  | nil =>
    intro l2 h
    cases l2 with
    | nil => cases h
    | cons b bs => rfl
  | cons a as ih =>
    intro l2 h
    cases l2 with
    | nil => cases h
    | cons b bs =>
      by_cases hab : a.toNat < b.toNat
      · have hba : ¬ b.toNat < a.toNat := by omega
        simp [charListLt, hba, hab]
      · by_cases hba : b.toNat < a.toNat
        · exfalso
          rw [charListLt, if_neg hab, if_pos hba] at h
          cases h
        · have hrec : charListLt as bs = true := by
            rw [charListLt, if_neg hab, if_neg hba] at h
            exact h
          rw [charListLt, if_neg hba, if_neg hab]
          exact ih bs hrec

theorem charListLt_trans : ∀ l1 l2 l3 : List Char,
    charListLt l1 l2 = true → charListLt l2 l3 = true → charListLt l1 l3 = true := by
  intro l1
  induction l1 with
  | nil =>
    intro l2 l3 h12 h23
    cases l2 with
    | nil => cases h12
    | cons b bs =>
      cases l3 with
      | nil => cases h23
      | cons c cs => rfl
  | cons a as ih =>
    intro l2 l3 h12 h23
    cases l2 with
    | nil => cases h12
    | cons b bs =>
      cases l3 with
      | nil => cases h23
      | cons c cs =>
        by_cases hab : a.toNat < b.toNat
        · by_cases hbc : b.toNat < c.toNat
          · have hac : a.toNat < c.toNat := Nat.lt_trans hab hbc
            simp [charListLt, hac]
          · by_cases hcb : c.toNat < b.toNat
            · exfalso
              rw [charListLt, if_neg hbc, if_pos hcb] at h23
              cases h23
            · have hac : a.toNat < c.toNat := by omega
              simp [charListLt, hac]
        · by_cases hba : b.toNat < a.toNat
          · exfalso
            rw [charListLt, if_neg hab, if_pos hba] at h12
            cases h12
          · have hrec12 : charListLt as bs = true := by
              rw [charListLt, if_neg hab, if_neg hba] at h12
              exact h12
            by_cases hbc : b.toNat < c.toNat
            · have hac : a.toNat < c.toNat := by omega
              simp [charListLt, hac]
            · by_cases hcb : c.toNat < b.toNat
              · exfalso
                rw [charListLt, if_neg hbc, if_pos hcb] at h23
                cases h23
              · have hrec23 : charListLt bs cs = true := by
                  rw [charListLt, if_neg hbc, if_neg hcb] at h23
                  exact h23
                have hac1 : ¬ a.toNat < c.toNat := by omega
                have hac2 : ¬ c.toNat < a.toNat := by omega
                rw [charListLt, if_neg hac1, if_neg hac2]
                exact ih bs cs hrec12 hrec23

theorem charListLt_connex : ∀ l1 l2 : List Char,
    charListLt l1 l2 = false → charListLt l2 l1 = false → l1 = l2 := by
  intro l1
  induction l1 with
  | nil =>
    intro l2 h1 _
    cases l2 with
    | nil => rfl
    | cons b bs => cases h1
  | cons a as ih =>
    intro l2 h1 h2
    cases l2 with
    | nil => cases h2
    | cons b bs =>
      by_cases hab : a.toNat < b.toNat
      · exfalso; rw [charListLt, if_pos hab] at h1; cases h1
      · by_cases hba : b.toNat < a.toNat
        · exfalso; rw [charListLt, if_pos hba] at h2; cases h2
        · have htn : a.toNat = b.toNat := by omega
          have heq : a = b := Char.eq_of_val_eq (UInt32.toNat.inj htn)
          rw [charListLt, if_neg hab, if_neg hba] at h1
          rw [charListLt, if_neg hba, if_neg hab] at h2
          rw [heq, ih bs h1 h2]

theorem strLe_refl (a : String) : strLe a a = true := by
  simp [strLe, strLt, charListLt_irrefl]

theorem strLe_of_not_le {x y : String} (h : ¬ strLe x y = true) :
    strLe y x = true := by
  have h1 : charListLt y.data x.data = true := by
    have := bool_eq_false h
    unfold strLe strLt at this
    cases hc : charListLt y.data x.data
    · rw [hc] at this; cases this
    · rfl
  unfold strLe strLt
  rw [charListLt_asymm _ _ h1]
  rfl

theorem strLe_trans {a b c : String} (h1 : strLe a b = true)
    (h2 : strLe b c = true) : strLe a c = true := by
  unfold strLe strLt at h1 h2 ⊢
  have hba : charListLt b.data a.data = false := by
    cases hc : charListLt b.data a.data
    · rfl
    · rw [hc] at h1; cases h1
  have hcb : charListLt c.data b.data = false := by
    cases hc : charListLt c.data b.data
    · rfl
    · rw [hc] at h2; cases h2
  have hca : charListLt c.data a.data = false := by
    cases hc : charListLt c.data a.data
    · rfl
    · exfalso
      by_cases hbc : charListLt b.data c.data = true
      · have := charListLt_trans _ _ _ hbc hc
        rw [this] at hba; cases hba
      · have hbc' : charListLt b.data c.data = false := bool_eq_false hbc
        have heq : b.data = c.data := charListLt_connex _ _ hbc' hcb
        rw [← heq] at hc
        rw [hc] at hba; cases hba
  rw [hca]
  rfl

theorem mem_insertSorted {x y : String} : ∀ s : List String,
    x ∈ insertSorted y s ↔ x = y ∨ x ∈ s := by
  intro s
  induction s with
  | nil => simp [insertSorted]
  | cons z zs ih =>
    unfold insertSorted
    by_cases h : strLe y z = true
    · rw [if_pos h]; simp
    · rw [if_neg h]
      simp only [List.mem_cons, ih]
      tauto

theorem insertSorted_head_cases {x z : String} : ∀ s : List String,
    (insertSorted x s).head? = some z → z = x ∨ s.head? = some z := by
  intro s
  cases s with
  | nil => intro h; cases h; exact Or.inl rfl
  | cons y ys =>
    unfold insertSorted
    by_cases hxy : strLe x y = true
    · rw [if_pos hxy]; intro h; cases h; exact Or.inl rfl
    · rw [if_neg hxy]; intro h; cases h; exact Or.inr rfl

theorem chain'_insertSorted {x : String} :
    ∀ s : List String, List.Chain' (fun a b => strLe a b = true) s →
      List.Chain' (fun a b => strLe a b = true) (insertSorted x s) := by
  intro s
  induction s with
  | nil => intro _; simp [insertSorted]
  | cons y ys ih =>
    intro hch
    rcases List.chain'_cons'.mp hch with ⟨hhead, htail⟩
    unfold insertSorted
    by_cases hxy : strLe x y = true
    · rw [if_pos hxy]
      exact List.chain'_cons'.mpr ⟨fun z hz => by cases hz; exact hxy, hch⟩
    · rw [if_neg hxy]
      refine List.chain'_cons'.mpr ⟨?_, ih htail⟩
      intro z hz
      rcases insertSorted_head_cases ys hz with h1 | h2
      · subst h1; exact strLe_of_not_le hxy
      · exact hhead z h2

theorem chain'_getLastD_ge :
    ∀ (l : List String) (d : String), List.Chain' (fun a b => strLe a b = true) l →
      ∀ x ∈ l, strLe x (l.getLastD d) = true := by
  intro l
  induction l with
  | nil => intro d _ x hx; cases hx
  | cons a t ih =>
    intro d hch x hx
    rcases List.chain'_cons'.mp hch with ⟨hhead, htail⟩
    rw [List.getLastD_cons]
    rcases List.mem_cons.mp hx with h1 | h2
    · subst h1
      cases t with
      | nil => exact strLe_refl x
      | cons b t' =>
        have hxb : strLe x b = true := hhead b rfl
        have hlast := ih x htail b (List.mem_cons_self b t')
        exact strLe_trans hxb hlast
    · exact ih a htail x h2

theorem mem_sortStrings {x : String} : ∀ l : List String,
    x ∈ sortStrings l ↔ x ∈ l := by
  intro l
  induction l with
  | nil => simp [sortStrings]
  | cons y ys ih =>
    show x ∈ insertSorted y (sortStrings ys) ↔ _
    rw [mem_insertSorted, ih]
    simp

theorem chain'_sortStrings : ∀ l : List String,
    List.Chain' (fun a b => strLe a b = true) (sortStrings l) := by
  intro l
  induction l with
  | nil => simp [sortStrings]
  | cons y ys ih => exact chain'_insertSorted _ ih

theorem getLastD_mem : ∀ (l : List String) (d : String), l ≠ [] → l.getLastD d ∈ l := by
  intro l
  induction l with
  | nil => intro d h; exact absurd rfl h
  | cons a t ih =>
    intro d _
    rw [List.getLastD_cons]
    cases t with
    | nil => exact List.mem_singleton.mpr rfl
    | cons b t' => exact List.mem_cons_of_mem a (ih a (by simp))

/-- Every input element is `strLe` the last element of the sorted list. -/
theorem sortStrings_max {x : String} {l : List String} (hx : x ∈ l) (d : String) :
    strLe x ((sortStrings l).getLastD d) = true := by
  have hxs : x ∈ sortStrings l := (mem_sortStrings l).mpr hx
  have hne : sortStrings l ≠ [] := by
    intro hnil; rw [hnil] at hxs; cases hxs
  exact chain'_getLastD_ge (sortStrings l) d (chain'_sortStrings l) x hxs

/-- The last element of the sorted list is one of the input elements. -/
theorem sortStrings_last_mem {l : List String} (h : l ≠ []) (d : String) :
    (sortStrings l).getLastD d ∈ l := by
  have hne : sortStrings l ≠ [] := by
    cases l with
    | nil => exact absurd rfl h
    | cons a t =>
      intro hnil
      have : a ∈ sortStrings (a :: t) := (mem_sortStrings _).mpr (List.mem_cons_self a t)
      rw [hnil] at this; cases this
  exact (mem_sortStrings l).mp (getLastD_mem _ d hne)

/-! ## Lemmas about entry validation and `make_versioned_dir` -/

theorem dirname_ok_iff {e : DirEntryM} {n : String} :
    dirname_is_valid_date e = .ok n ↔ entryOk e ∧ n = e.name := by
  unfold dirname_is_valid_date entryOk
  rcases e with ⟨name, ft⟩
  rcases ft with _ | isDir
  · simp
  · cases isDir
    · simp
    · by_cases hp : chronoParseOk name = true
      · simp [hp, eq_comm]
      · simp [hp]

theorem dirname_none {e : DirEntryM} (h : e.fileType = none) :
    dirname_is_valid_date e = .error .panicked := by
  unfold dirname_is_valid_date
  rw [h]

theorem dirname_not_dir {e : DirEntryM} (h : e.fileType = some false) :
    dirname_is_valid_date e =
      .error (.invalidEntry ("Directory entry " ++ e.name ++ " is not a directory")) := by
  unfold dirname_is_valid_date
  rw [h]
  rfl

theorem dirname_bad_name {e : DirEntryM} (h1 : e.fileType = some true)
    (h2 : chronoParseOk e.name = false) :
    dirname_is_valid_date e =
      .error (.invalidEntry ("Directory entry name " ++ e.name ++
        " is not in datetime format of YYYYmmddHHMM")) := by
  unfold dirname_is_valid_date
  rw [h1, h2]
  rfl

theorem collectValid_of_all : ∀ {entries : List DirEntryM},
    (∀ e ∈ entries, entryOk e) →
    collectValid entries = .ok (entries.map DirEntryM.name) := by
  intro entries
  induction entries with
  | nil => intro _; rfl
  | cons e rest ih =>
    intro h
    have he : entryOk e := h e (List.mem_cons_self e rest)
    have hr := ih (fun x hx => h x (List.mem_cons_of_mem e hx))
    unfold collectValid
    rw [dirname_ok_iff.mpr ⟨he, rfl⟩, hr]
    rfl

theorem collectValid_ok_inv : ∀ {entries : List DirEntryM} {ns : List String},
    collectValid entries = .ok ns →
    ns = entries.map DirEntryM.name ∧ ∀ e ∈ entries, entryOk e := by
  intro entries
  induction entries with
  | nil =>
    intro ns h
    cases h
    exact ⟨rfl, fun e he => absurd he (List.not_mem_nil e)⟩
  | cons e rest ih =>
    intro ns h
    unfold collectValid at h
    rcases hd : dirname_is_valid_date e with err | name <;> rw [hd] at h
    · cases h
    · rcases hr : collectValid rest with err | names <;> rw [hr] at h
      · cases h
      · cases h
        rcases dirname_ok_iff.mp hd with ⟨hok, hn⟩
        rcases ih hr with ⟨hns, hall⟩
        constructor
        · rw [hn, hns]; rfl
        · intro x hx
          rcases List.mem_cons.mp hx with h1 | h2
          · subst h1; exact hok
          · exact hall x h2

theorem collectValid_first_error :
    ∀ (pre : List DirEntryM) (e : DirEntryM) (post : List DirEntryM) (err : RunErr),
      (∀ x ∈ pre, entryOk x) → dirname_is_valid_date e = .error err →
      collectValid (pre ++ e :: post) = .error err := by
  intro pre
  induction pre with
  | nil =>
    intro e post err _ he
    show collectValid (e :: post) = .error err
    unfold collectValid
    rw [he]
  | cons x pre' ih =>
    intro e post err hall he
    have hx : entryOk x := hall x (List.mem_cons_self x pre')
    show collectValid (x :: (pre' ++ e :: post)) = .error err
    unfold collectValid
    rw [dirname_ok_iff.mpr ⟨hx, rfl⟩,
        ih e post err (fun z hz => hall z (List.mem_cons_of_mem x hz)) he]

theorem mvd_of_collect_ok {entries : List DirEntryM} {now_dir : String}
    {cli : CliM} {dirs : List String} (h : collectValid entries = .ok dirs) :
    make_versioned_dir entries now_dir cli = .ok (mvd_body dirs now_dir cli) := by
  unfold make_versioned_dir
  rw [h]

theorem mvd_error_of_collect {entries : List DirEntryM} {now_dir : String}
    {cli : CliM} {err : RunErr} (h : collectValid entries = .error err) :
    make_versioned_dir entries now_dir cli = .error err := by
  unfold make_versioned_dir
  rw [h]

theorem mvd_body_gt {dirs : List String} {now_dir : String} {cli : CliM}
    (h : 1 < dirs.length) :
    mvd_body dirs now_dir cli =
      ({ cli with target_dir := pathJoin cli.target_dir now_dir },
       ["--link-dest=" ++ pathJoin cli.target_dir ((sortStrings dirs).getLastD "")]) := by
  unfold mvd_body
  rw [if_pos h]

theorem mvd_body_le {dirs : List String} {now_dir : String} {cli : CliM}
    (h : ¬ 1 < dirs.length) :
    mvd_body dirs now_dir cli =
      ({ cli with target_dir := pathJoin cli.target_dir now_dir }, []) := by
  unfold mvd_body
  rw [if_neg h]

theorem mvd_ok_inv {entries : List DirEntryM} {now_dir : String} {cli cli2 : CliM}
    {other : List String}
    (h : make_versioned_dir entries now_dir cli = .ok (cli2, other)) :
    cli2 = { cli with target_dir := pathJoin cli.target_dir now_dir } ∧
    (∀ e ∈ entries, entryOk e) ∧
    ((other = [] ∧ entries.length ≤ 1) ∨
      (2 ≤ entries.length ∧
        other = ["--link-dest=" ++ pathJoin cli.target_dir
          ((sortStrings (entries.map DirEntryM.name)).getLastD "")])) := by
  unfold make_versioned_dir at h
  rcases hcv : collectValid entries with err | dirs <;> rw [hcv] at h
  · cases h
  · rcases collectValid_ok_inv hcv with ⟨hdirs, hall⟩
    have hlen : dirs.length = entries.length := by rw [hdirs, List.length_map]
    have h' : (Except.ok (mvd_body dirs now_dir cli) :
        Except RunErr (CliM × List String)) = .ok (cli2, other) := h
    by_cases hgt : 1 < dirs.length
    · rw [mvd_body_gt hgt] at h'
      cases h'
      exact ⟨rfl, hall, Or.inr ⟨by omega, by rw [hdirs]⟩⟩
    · rw [mvd_body_le hgt] at h'
      cases h'
      exact ⟨rfl, hall, Or.inl ⟨rfl, by omega⟩⟩

theorem mvd_of_all {entries : List DirEntryM} {now_dir : String} {cli : CliM}
    (h : ∀ e ∈ entries, entryOk e) :
    make_versioned_dir entries now_dir cli =
      .ok ({ cli with target_dir := pathJoin cli.target_dir now_dir },
        if 1 < entries.length then
          ["--link-dest=" ++ pathJoin cli.target_dir
            ((sortStrings (entries.map DirEntryM.name)).getLastD "")]
        else []) := by
  rw [mvd_of_collect_ok (collectValid_of_all h)]
  by_cases hgt : 1 < entries.length
  · rw [mvd_body_gt (by rw [List.length_map]; exact hgt), if_pos hgt]
  · rw [mvd_body_le (by rw [List.length_map]; exact hgt), if_neg hgt]

/-! ## Lemmas about the argument construction -/

theorem run_args_not_versioned {cli : CliM} {entries : List DirEntryM}
    {now_dir : String} (h : cli.versioned = false) :
    run_rsync_args cli entries now_dir = .ok (rsync_args_body cli false []) := by
  unfold run_rsync_args
  rw [h]
  rfl

theorem run_args_versioned {cli : CliM} {entries : List DirEntryM}
    {now_dir : String} {cli2 : CliM} {other : List String}
    (h : cli.versioned = true)
    (hm : make_versioned_dir entries now_dir cli = .ok (cli2, other)) :
    run_rsync_args cli entries now_dir = .ok (rsync_args_body cli2 true other) := by
  unfold run_rsync_args
  rw [h, if_pos rfl, hm]

theorem run_args_error {cli : CliM} {entries : List DirEntryM}
    {now_dir : String} {err : RunErr} (h : cli.versioned = true)
    (hm : make_versioned_dir entries now_dir cli = .error err) :
    run_rsync_args cli entries now_dir = .error err := by
  unfold run_rsync_args
  rw [h, if_pos rfl, hm]

theorem rsync_args_body_eq_true (cli2 : CliM) (other : List String) :
    rsync_args_body cli2 true other =
      baseArgs ++ other ++ cacheExcludeArgs cli2 ++ overrideArgs cli2 ++
        passThroughArgs cli2 ++ [cli2.source_dir, cli2.target_dir] := by
  rcases cli2 with ⟨src, tgt, v, nec, eo, pa⟩
  cases nec <;> rcases eo with _ | s <;> rcases pa with _ | t <;>
    simp [rsync_args_body, baseArgs, cacheExcludeArgs, overrideArgs, passThroughArgs]

theorem rsync_args_body_eq_false (cli2 : CliM) (other : List String) :
    rsync_args_body cli2 false other =
      baseArgs ++ cacheExcludeArgs cli2 ++ overrideArgs cli2 ++
        passThroughArgs cli2 ++ [cli2.source_dir, cli2.target_dir] := by
  rcases cli2 with ⟨src, tgt, v, nec, eo, pa⟩
  cases nec <;> rcases eo with _ | s <;> rcases pa with _ | t <;>
    simp [rsync_args_body, baseArgs, cacheExcludeArgs, overrideArgs, passThroughArgs]

theorem getLastD_irrel {α : Type} : ∀ (l : List α) (d d' : α), l ≠ [] →
    l.getLastD d = l.getLastD d' := by
  intro l d d' h
  cases l with
  | nil => exact absurd rfl h
  | cons a t => rw [List.getLastD_cons, List.getLastD_cons]

theorem getLastD_append_right {α : Type} : ∀ (l1 l2 : List α) (d : α), l2 ≠ [] →
    (l1 ++ l2).getLastD d = l2.getLastD d := by
  intro l1
  induction l1 with
  | nil => intro l2 d _; rfl
  | cons a t ih =>
    intro l2 d h
    show ((a :: (t ++ l2)).getLastD d) = _
    rw [List.getLastD_cons, ih l2 a h]
    exact getLastD_irrel l2 a d h

theorem rsync_args_body_getLast (cli2 : CliM) (v : Bool) (other : List String)
    (d : String) : (rsync_args_body cli2 v other).getLastD d = cli2.target_dir := by
  have hpair : ∀ (l : List String) (s t dd : String), (l ++ [s, t]).getLastD dd = t := by
    intro l s t dd
    rw [getLastD_append_right l [s, t] dd (by simp)]
    rfl
  cases v
  · rw [rsync_args_body_eq_false cli2 other]
    rw [show baseArgs ++ cacheExcludeArgs cli2 ++ overrideArgs cli2 ++
        passThroughArgs cli2 ++ [cli2.source_dir, cli2.target_dir] =
        (baseArgs ++ (cacheExcludeArgs cli2 ++ (overrideArgs cli2 ++
          passThroughArgs cli2))) ++ [cli2.source_dir, cli2.target_dir] by
      simp [List.append_assoc]]
    exact hpair _ _ _ _
  · rw [rsync_args_body_eq_true cli2 other]
    rw [show baseArgs ++ other ++ cacheExcludeArgs cli2 ++ overrideArgs cli2 ++
        passThroughArgs cli2 ++ [cli2.source_dir, cli2.target_dir] =
        (baseArgs ++ (other ++ (cacheExcludeArgs cli2 ++ (overrideArgs cli2 ++
          passThroughArgs cli2)))) ++ [cli2.source_dir, cli2.target_dir] by
      simp [List.append_assoc]]
    exact hpair _ _ _ _

/-! ## Claim theorems for the versioning manager and argument builder -/

/-- Claim C1 (amended): on a successful scan the `--link-dest` reference is
present iff the target root holds *at least two* validated snapshots (the
source condition is `dirs.len() > 1`, not `≥ 1` as claimed), and when present
it is the single `--link-dest` argument naming the maximum snapshot under the
string order: a member of the scanned names that every scanned name is `≤`. -/
theorem C1_link_reference_threshold :
    ∀ (entries : List DirEntryM) (now_dir : String) (cli cli2 : CliM)
      (other : List String),
      make_versioned_dir entries now_dir cli = .ok (cli2, other) →
      ((other ≠ [] ↔ 2 ≤ entries.length) ∧
        (2 ≤ entries.length →
          ∃ best, other = ["--link-dest=" ++ pathJoin cli.target_dir best] ∧
            best ∈ entries.map DirEntryM.name ∧
            ∀ e ∈ entries, strLe e.name best = true)) := by
  intro entries now_dir cli cli2 other h
  rcases mvd_ok_inv h with ⟨_, _, hcase⟩
  constructor
  · rcases hcase with ⟨ho, hle⟩ | ⟨hge, ho⟩
    · constructor
      · intro hne; exact absurd ho hne
      · intro hge; exact absurd hge (by omega)
    · constructor
      · intro _; exact hge
      · intro _; rw [ho]; simp
  · intro hge
    rcases hcase with ⟨ho, hle⟩ | ⟨_, ho⟩
    · exact absurd hge (by omega)
    · refine ⟨(sortStrings (entries.map DirEntryM.name)).getLastD "", ho, ?_, ?_⟩
      · apply sortStrings_last_mem
        intro hnil
        have hl := congrArg List.length hnil
        rw [List.length_map, List.length_nil] at hl
        omega
      · intro e he
        exact sortStrings_max (List.mem_map_of_mem DirEntryM.name he) ""

/-- Counterexample to C1 as stated: a target root with *exactly one* valid
prior snapshot yields *no* link reference (`other_args` stays empty), because
the source requires `dirs.len() > 1`; the claim demands a link reference
already at one snapshot. -/
theorem C1_single_snapshot_no_link :
    make_versioned_dir [⟨"202401010000", some true⟩] "202402020000"
        ⟨"/src", "/dst", true, false, none, none⟩ =
      .ok (⟨"/src", "/dst/202402020000", true, false, none, none⟩, []) := by
  decide

/-- Witness for C1 at a two-snapshot root: the link reference is offered. -/
theorem C1_link_reference_threshold_witness :
    (["--link-dest=/dst/202402020000"] : List String) ≠ [] :=
  (C1_link_reference_threshold
      [⟨"202401010000", some true⟩, ⟨"202402020000", some true⟩] "202403030000"
      ⟨"/src", "/dst", true, false, none, none⟩
      ⟨"/src", "/dst/202403030000", true, false, none, none⟩
      ["--link-dest=/dst/202402020000"] (by decide)).1.mpr (by decide)

/-- Claim C4 (amended): the scan succeeds iff every entry under the target
root is a directory whose name parses under chrono's `%Y%m%d%H%M` semantics
(`entryOk`) — a set that contains the 12-digit names but also, e.g., 11-digit
names with a single-digit minute, so "named exactly in the 12-digit format"
is not the actual acceptance condition.  The first offending entry makes the
scan fail fast, before rsync is spawned, with the `ensure!` message naming
that entry — except that an entry whose file type cannot be read (permission
error) causes a panic (`.unwrap()`, line 115), not a descriptive error.  Any
scan failure propagates so that no argument list is ever built. -/
theorem C4_entry_validation :
    ∀ (entries : List DirEntryM) (now_dir : String) (cli : CliM),
      ((∃ cli2 other, make_versioned_dir entries now_dir cli = .ok (cli2, other)) ↔
        ∀ e ∈ entries, entryOk e) ∧
      (∀ (pre : List DirEntryM) (e : DirEntryM) (post : List DirEntryM),
        entries = pre ++ e :: post → (∀ x ∈ pre, entryOk x) →
        ((e.fileType = none →
            make_versioned_dir entries now_dir cli = .error .panicked) ∧
         (e.fileType = some false →
            make_versioned_dir entries now_dir cli =
              .error (.invalidEntry
                ("Directory entry " ++ e.name ++ " is not a directory"))) ∧
         (e.fileType = some true → chronoParseOk e.name = false →
            make_versioned_dir entries now_dir cli =
              .error (.invalidEntry ("Directory entry name " ++ e.name ++
                " is not in datetime format of YYYYmmddHHMM"))))) ∧
      (∀ err : RunErr, cli.versioned = true →
        make_versioned_dir entries now_dir cli = .error err →
        run_rsync_args cli entries now_dir = .error err) := by
  intro entries now_dir cli
  refine ⟨⟨?_, ?_⟩, ?_, ?_⟩
  · intro h
    rcases h with ⟨cli2, other, hok⟩
    exact (mvd_ok_inv hok).2.1
  · intro h
    exact ⟨_, _, mvd_of_all h⟩
  · intro pre e post hsplit hpre
    subst hsplit
    refine ⟨?_, ?_, ?_⟩
    · intro hft
      exact mvd_error_of_collect
        (collectValid_first_error pre e post _ hpre (dirname_none hft))
    · intro hft
      exact mvd_error_of_collect
        (collectValid_first_error pre e post _ hpre (dirname_not_dir hft))
    · intro hft hp
      exact mvd_error_of_collect
        (collectValid_first_error pre e post _ hpre (dirname_bad_name hft hp))
  · intro err hv hm
    exact run_args_error hv hm

/-- Counterexample to C4 as stated: the directory entry named `20240101000`
(11 digits — *not* the 12-digit `YYYYMMDDHHMM` format) is accepted by
chrono's parser (`%M` takes the single remaining digit), so the scan
*succeeds* instead of failing fast; the entry even joins the snapshot set. -/
theorem C4_eleven_digit_name_accepted :
    ("20240101000" : String).data.length = 11 ∧
    chronoParseOk "20240101000" = true ∧
    make_versioned_dir [⟨"20240101000", some true⟩] "202402020000"
        ⟨"/s", "/t", true, false, none, none⟩ =
      .ok (⟨"/s", "/t/202402020000", true, false, none, none⟩, []) := by
  refine ⟨by decide, by decide, by decide⟩

/-- Witness for C4: a non-parseable entry name makes the scan fail fast with
the `ensure!` message naming the entry. -/
theorem C4_entry_validation_witness :
    make_versioned_dir [⟨"notadate", some true⟩] "202501010000"
        ⟨"/s", "/t", true, false, none, none⟩ =
      .error (.invalidEntry
        "Directory entry name notadate is not in datetime format of YYYYmmddHHMM") :=
  ((C4_entry_validation [⟨"notadate", some true⟩] "202501010000"
      ⟨"/s", "/t", true, false, none, none⟩).2.1
    [] ⟨"notadate", some true⟩ [] rfl (by intro x hx; cases hx)).2.2 rfl (by decide)

/-- Claim C5: the argument list is always base flags, then (when versioned)
the link-reference arguments (empty or a single `--link-dest`), then — unless
disabled — the two cache-exclude pairs, then one `--exclude` pair per
comma-separated override entry (additive with the cache excludes), then the
pass-through string split on single spaces, then the source and the resolved
target as the final two positional arguments; on the spec's concrete example
configuration the exact expected list is produced. -/
theorem C5_argument_order :
    (∀ (cli : CliM) (entries : List DirEntryM) (now_dir : String),
        cli.versioned = false →
        run_rsync_args cli entries now_dir =
          .ok (baseArgs ++ cacheExcludeArgs cli ++ overrideArgs cli ++
            passThroughArgs cli ++ [cli.source_dir, cli.target_dir])) ∧
    (∀ (cli : CliM) (entries : List DirEntryM) (now_dir : String)
        (cli2 : CliM) (other : List String),
        cli.versioned = true →
        make_versioned_dir entries now_dir cli = .ok (cli2, other) →
        (other = [] ∨ ∃ link, other = [link]) ∧
        run_rsync_args cli entries now_dir =
          .ok (baseArgs ++ other ++ cacheExcludeArgs cli ++ overrideArgs cli ++
            passThroughArgs cli ++ [cli.source_dir, cli2.target_dir])) ∧
    (∀ (entries : List DirEntryM) (now_dir : String),
        run_rsync_args ⟨"/a", "/b", false, false, none, none⟩ entries now_dir =
          .ok ["-axP", "--stats", "--exclude", "**Cache**", "--exclude", "**cache**",
               "/a", "/b"]) := by
  refine ⟨?_, ?_, ?_⟩
  · intro cli entries now_dir h
    rw [run_args_not_versioned h, rsync_args_body_eq_false cli []]
  · intro cli entries now_dir cli2 other h hm
    rcases mvd_ok_inv hm with ⟨hcli2, _, hcase⟩
    constructor
    · rcases hcase with ⟨ho, _⟩ | ⟨_, ho⟩
      · exact Or.inl ho
      · exact Or.inr ⟨_, ho⟩
    · have hcache : cacheExcludeArgs cli2 = cacheExcludeArgs cli := by
        rw [hcli2]; rfl
      have hover : overrideArgs cli2 = overrideArgs cli := by
        rw [hcli2]; rfl
      have hpass : passThroughArgs cli2 = passThroughArgs cli := by
        rw [hcli2]; rfl
      have hsrc : cli2.source_dir = cli.source_dir := by
        rw [hcli2]
      rw [run_args_versioned h hm, rsync_args_body_eq_true cli2 other,
          hcache, hover, hpass, hsrc]
  · intro entries now_dir
    rw [run_args_not_versioned rfl]
    rfl

/-- Witness for C5 at a configuration with override excludes and pass-through
arguments: override pairs are appended after (not instead of) the cache
excludes, and the pass-through string is split on single spaces. -/
theorem C5_argument_order_witness :
    run_rsync_args ⟨"/a", "/b", false, false, some "x,y", some "-v -n"⟩ [] "t" =
      .ok ["-axP", "--stats", "--exclude", "**Cache**", "--exclude", "**cache**",
           "--exclude", "x", "--exclude", "y", "-v", "-n", "/a", "/b"] :=
  C5_argument_order.1 ⟨"/a", "/b", false, false, some "x,y", some "-v -n"⟩ [] "t" rfl

/-- Claim C6: on a successful versioned scan the caller's target path is
replaced by `targetRoot/now` (the current local time formatted as the
12-digit timestamp), with no other field changed; the replacement happens
with *no uniqueness check* — a root all of whose entries are valid always
succeeds, whatever `now` is, colliding names included; and the new path is
the final positional argument of the built rsync invocation. -/
theorem C6_target_replacement :
    (∀ (entries : List DirEntryM) (now_dir : String) (cli cli2 : CliM)
        (other : List String),
        make_versioned_dir entries now_dir cli = .ok (cli2, other) →
        cli2 = { cli with target_dir := pathJoin cli.target_dir now_dir }) ∧
    (∀ (entries : List DirEntryM) (now_dir : String) (cli : CliM),
        (∀ e ∈ entries, entryOk e) →
        ∃ other, make_versioned_dir entries now_dir cli =
          .ok ({ cli with target_dir := pathJoin cli.target_dir now_dir }, other)) ∧
    (∀ (cli : CliM) (entries : List DirEntryM) (now_dir : String)
        (args : List String),
        cli.versioned = true →
        run_rsync_args cli entries now_dir = .ok args →
        args.getLastD "" = pathJoin cli.target_dir now_dir) := by
  refine ⟨?_, ?_, ?_⟩
  · intro entries now_dir cli cli2 other h
    exact (mvd_ok_inv h).1
  · intro entries now_dir cli h
    exact ⟨_, mvd_of_all h⟩
  · intro cli entries now_dir args hv hok
    unfold run_rsync_args at hok
    rw [hv, if_pos rfl] at hok
    rcases hm : make_versioned_dir entries now_dir cli with err | p <;> rw [hm] at hok
    · cases hok
    · rcases p with ⟨cli2, other⟩
      have hok' : (Except.ok (rsync_args_body cli2 true other) :
          Except RunErr (List String)) = .ok args := hok
      cases hok'
      rw [rsync_args_body_getLast, (mvd_ok_inv hm).1]

/-- Witness for C6: even when the formatted current time *collides* with an
existing snapshot name, the replacement succeeds and produces the same
joined path — no uniqueness check happens. -/
theorem C6_target_replacement_witness :
    ∃ other, make_versioned_dir [⟨"202401010000", some true⟩] "202401010000"
        ⟨"/s", "/t", true, false, none, none⟩ =
      .ok (⟨"/s", "/t/202401010000", true, false, none, none⟩, other) :=
  C6_target_replacement.2.1 [⟨"202401010000", some true⟩] "202401010000"
    ⟨"/s", "/t", true, false, none, none⟩ (by decide)

/-! ## Chronology of the fixed-width timestamp order (claim C7) -/

theorem digitsVal_lt_pow : ∀ l : List Char,
    (∀ c ∈ l, 48 ≤ c.toNat ∧ c.toNat ≤ 57) → digitsVal l < 10 ^ l.length := by
  intro l
  induction l with
  | nil => intro _; simp [digitsVal]
  | cons c t ih =>
    intro h
    have hc := h c (List.mem_cons_self c t)
    have ht := ih (fun x hx => h x (List.mem_cons_of_mem c hx))
    unfold digitsVal
    have hgoal : (c.toNat - 48) * 10 ^ t.length + digitsVal t < 10 ^ (t.length + 1) := by
      calc (c.toNat - 48) * 10 ^ t.length + digitsVal t
          < (c.toNat - 48) * 10 ^ t.length + 10 ^ t.length := by omega
        _ = (c.toNat - 48 + 1) * 10 ^ t.length := by ring
        _ ≤ 10 * 10 ^ t.length := Nat.mul_le_mul (by omega) (le_refl _)
        _ = 10 ^ (t.length + 1) := by ring
    simpa using hgoal

theorem posLt (k d1 d2 v1 v2 : Nat) (_hk : 0 < k) (h1 : v1 < k) (h2 : v2 < k) :
    d1 * k + v1 < d2 * k + v2 ↔ d1 < d2 ∨ (d1 = d2 ∧ v1 < v2) := by
  constructor
  · intro h
    rcases Nat.lt_trichotomy d1 d2 with ht | ht | ht
    · exact Or.inl ht
    · subst ht; exact Or.inr ⟨rfl, by omega⟩
    · exfalso
      have hmul : (d2 + 1) * k ≤ d1 * k := Nat.mul_le_mul ht (le_refl k)
      have hm2 : d2 * k + k ≤ d1 * k := by
        calc d2 * k + k = (d2 + 1) * k := by ring
          _ ≤ d1 * k := hmul
      omega
  · intro h
    rcases h with ht | ⟨ht, hv⟩
    · have hmul : (d1 + 1) * k ≤ d2 * k := Nat.mul_le_mul ht (le_refl k)
      have hm2 : d1 * k + k ≤ d2 * k := by
        calc d1 * k + k = (d1 + 1) * k := by ring
          _ ≤ d2 * k := hmul
      omega
    · subst ht; omega

theorem charListLt_iff_val : ∀ l1 l2 : List Char, l1.length = l2.length →
    (∀ c ∈ l1, 48 ≤ c.toNat ∧ c.toNat ≤ 57) →
    (∀ c ∈ l2, 48 ≤ c.toNat ∧ c.toNat ≤ 57) →
    (charListLt l1 l2 = true ↔ digitsVal l1 < digitsVal l2) := by
  intro l1
  induction l1 with
  | nil =>
    intro l2 hlen _ _
    cases l2 with
    | nil =>
      constructor
      · intro h; cases h
      · intro h; exact absurd h (by simp [digitsVal])
    | cons b bs => exact absurd hlen (by simp)
  | cons a as ih =>
    intro l2 hlen hd1 hd2
    cases l2 with
    | nil => exact absurd hlen (by simp)
    | cons b bs =>
      have hlen' : as.length = bs.length := by simpa using hlen
      have ha := hd1 a (List.mem_cons_self a as)
      have hb := hd2 b (List.mem_cons_self b bs)
      have has : ∀ c ∈ as, 48 ≤ c.toNat ∧ c.toNat ≤ 57 :=
        fun c hc => hd1 c (List.mem_cons_of_mem a hc)
      have hbs : ∀ c ∈ bs, 48 ≤ c.toNat ∧ c.toNat ≤ 57 :=
        fun c hc => hd2 c (List.mem_cons_of_mem b hc)
      have hva := digitsVal_lt_pow as has
      have hvb := digitsVal_lt_pow bs hbs
      rw [hlen'] at hva
      unfold digitsVal
      rw [hlen']
      rw [posLt (10 ^ bs.length) _ _ _ _ (pow_pos (by omega) _) hva hvb]
      unfold charListLt
      by_cases hab : a.toNat < b.toNat
      · rw [if_pos hab]
        constructor
        · intro _; exact Or.inl (by omega)
        · intro _; rfl
      · rw [if_neg hab]
        by_cases hba : b.toNat < a.toNat
        · rw [if_pos hba]
          constructor
          · intro h; cases h
          · intro h
            rcases h with h | ⟨h, _⟩ <;> exact absurd h (by omega)
        · rw [if_neg hba]
          rw [ih bs hlen' has hbs]
          constructor
          · intro h; exact Or.inr ⟨by omega, h⟩
          · intro h
            rcases h with h | ⟨_, h⟩
            · exact absurd h (by omega)
            · exact h

theorem daysBeforeMonth_step (y : Nat) : ∀ m, 1 ≤ m → m ≤ 11 →
    daysBeforeMonth y m + daysInMonth y m = daysBeforeMonth y (m + 1) := by
  intro m h1 h2
  interval_cases m <;> cases hb : isLeapYear y <;>
    simp [daysBeforeMonth, daysInMonth, hb]

theorem dayIdx_lt (y mo d : Nat) (h1 : 1 ≤ mo) (h2 : mo ≤ 12) (h3 : 1 ≤ d)
    (h4 : d ≤ daysInMonth y mo) :
    daysBeforeMonth y mo + (d - 1) < daysInYear y := by
  interval_cases mo <;> cases hb : isLeapYear y <;>
    simp [daysBeforeMonth, daysInMonth, daysInYear, hb] at h4 ⊢ <;> omega

theorem daysBeforeMonth_mono (y : Nat) : ∀ mo2 mo1, 1 ≤ mo1 → mo1 < mo2 → mo2 ≤ 12 →
    daysBeforeMonth y mo1 + daysInMonth y mo1 ≤ daysBeforeMonth y mo2 := by
  intro mo2
  induction mo2 with
  | zero => intro mo1 _ h2 _; omega
  | succ m ih =>
    intro mo1 h1 h2 h3
    by_cases he : mo1 = m
    · subst he
      rw [daysBeforeMonth_step y mo1 h1 (by omega)]
    · have hlt : mo1 < m := by omega
      have hstep := daysBeforeMonth_step y m (by omega) (by omega)
      have hih := ih mo1 h1 hlt (by omega)
      omega

theorem daysBeforeYear_mono : ∀ y2 y1, y1 < y2 →
    daysBeforeYear y1 + daysInYear y1 ≤ daysBeforeYear y2 := by
  intro y2
  induction y2 with
  | zero => intro y1 h; omega
  | succ y ih =>
    intro y1 h
    by_cases he : y1 = y
    · subst he; rw [daysBeforeYear_succ]
    · have hih := ih y1 (by omega)
      have hs := daysBeforeYear_succ y
      omega

theorem minutes_mono {y1 mo1 d1 h1 mi1 y2 mo2 d2 h2 mi2 : Nat}
    (hm1a : 1 ≤ mo1) (hm1b : mo1 ≤ 12) (hd1a : 1 ≤ d1)
    (hd1b : d1 ≤ daysInMonth y1 mo1) (hh1 : h1 ≤ 23) (hmi1 : mi1 ≤ 59)
    (hm2a : 1 ≤ mo2) (hm2b : mo2 ≤ 12) (hd2a : 1 ≤ d2)
    (hd2b : d2 ≤ daysInMonth y2 mo2) (hh2 : h2 ≤ 23) (hmi2 : mi2 ≤ 59)
    (hlex : y1 < y2 ∨ (y1 = y2 ∧ (mo1 < mo2 ∨ (mo1 = mo2 ∧
      (d1 < d2 ∨ (d1 = d2 ∧ (h1 < h2 ∨ (h1 = h2 ∧ mi1 < mi2)))))))) :
    ((daysBeforeYear y1 + daysBeforeMonth y1 mo1 + (d1 - 1)) * 24 + h1) * 60 + mi1 <
      ((daysBeforeYear y2 + daysBeforeMonth y2 mo2 + (d2 - 1)) * 24 + h2) * 60 + mi2 := by
  rcases hlex with hy | ⟨rfl, hrest⟩
  · have hidx1 := dayIdx_lt y1 mo1 d1 hm1a hm1b hd1a hd1b
    have hyB := daysBeforeYear_mono y2 y1 hy
    omega
  · rcases hrest with hmo | ⟨rfl, hrest⟩
    · have hstep := daysBeforeMonth_mono y1 mo2 mo1 hm1a hmo hm2b
      omega
    · rcases hrest with hd | ⟨rfl, hrest⟩
      · omega
      · rcases hrest with hh | ⟨rfl, hmi⟩ <;> omega

theorem peel (N1 N2 K : Nat) (hK : 0 < K) (h : N1 < N2) :
    N1 / K < N2 / K ∨ (N1 / K = N2 / K ∧ N1 % K < N2 % K) := by
  have g1 : N1 / K * K + N1 % K = N1 := by
    rw [Nat.mul_comm]; exact Nat.div_add_mod N1 K
  have g2 : N2 / K * K + N2 % K = N2 := by
    rw [Nat.mul_comm]; exact Nat.div_add_mod N2 K
  exact (posLt K (N1 / K) (N2 / K) (N1 % K) (N2 % K) hK
    (Nat.mod_lt N1 hK) (Nat.mod_lt N2 hK)).mp (by rw [g1, g2]; exact h)

theorem fields_lex_of_lt (s1 s2 : String) (hN : tsVal s1 < tsVal s2) :
    tsYear s1 < tsYear s2 ∨ (tsYear s1 = tsYear s2 ∧
      (tsMonth s1 < tsMonth s2 ∨ (tsMonth s1 = tsMonth s2 ∧
      (tsDay s1 < tsDay s2 ∨ (tsDay s1 = tsDay s2 ∧
      (tsHour s1 < tsHour s2 ∨ (tsHour s1 = tsHour s2 ∧
        tsMin s1 < tsMin s2))))))) := by
  have c1 : ∀ N : Nat, N % 100000000 / 1000000 = N / 1000000 % 100 :=
    fun N => by omega
  have c2 : ∀ N : Nat, N % 100000000 % 1000000 = N % 1000000 :=
    fun N => by omega
  have c3 : ∀ N : Nat, N % 1000000 / 10000 = N / 10000 % 100 :=
    fun N => by omega
  have c4 : ∀ N : Nat, N % 1000000 % 10000 = N % 10000 :=
    fun N => by omega
  have c5 : ∀ N : Nat, N % 10000 / 100 = N / 100 % 100 :=
    fun N => by omega
  have c6 : ∀ N : Nat, N % 10000 % 100 = N % 100 :=
    fun N => by omega
  unfold tsYear tsMonth tsDay tsHour tsMin
  rcases peel (tsVal s1) (tsVal s2) 100000000 (by omega) hN with hy | ⟨hye, h8⟩
  · exact Or.inl hy
  · refine Or.inr ⟨hye, ?_⟩
    rcases peel _ _ 1000000 (by omega) h8 with hmo | ⟨hmoe, h6⟩
    · rw [c1, c1] at hmo
      exact Or.inl hmo
    · rw [c1, c1] at hmoe
      rw [c2, c2] at h6
      refine Or.inr ⟨hmoe, ?_⟩
      rcases peel _ _ 10000 (by omega) h6 with hd | ⟨hde, h4⟩
      · rw [c3, c3] at hd
        exact Or.inl hd
      · rw [c3, c3] at hde
        rw [c4, c4] at h4
        refine Or.inr ⟨hde, ?_⟩
        rcases peel _ _ 100 (by omega) h4 with hh | ⟨hhe, h2⟩
        · rw [c5, c5] at hh
          exact Or.inl hh
        · rw [c5, c5] at hhe
          rw [c6, c6] at h2
          exact Or.inr ⟨hhe, h2⟩

theorem tsVal_lt_iff_toMinutes {s1 s2 : String} (hv1 : Valid12 s1) (hv2 : Valid12 s2) :
    tsVal s1 < tsVal s2 ↔ toMinutes s1 < toMinutes s2 := by
  obtain ⟨hl1, hdg1, hmo1a, hmo1b, hd1a, hd1b, hh1, hmi1⟩ := hv1
  obtain ⟨hl2, hdg2, hmo2a, hmo2b, hd2a, hd2b, hh2, hmi2⟩ := hv2
  constructor
  · intro hN
    show toMinutes s1 < toMinutes s2
    unfold toMinutes
    exact minutes_mono hmo1a hmo1b hd1a hd1b hh1 hmi1
      hmo2a hmo2b hd2a hd2b hh2 hmi2 (fields_lex_of_lt s1 s2 hN)
  · intro hM
    rcases Nat.lt_trichotomy (tsVal s1) (tsVal s2) with h | h | h
    · exact h
    · exfalso
      have heq : toMinutes s1 = toMinutes s2 := by
        unfold toMinutes tsYear tsMonth tsDay tsHour tsMin
        rw [h]
      rw [heq] at hM
      exact lt_irrefl _ hM
    · exfalso
      have hlt : toMinutes s2 < toMinutes s1 := by
        unfold toMinutes
        exact minutes_mono hmo2a hmo2b hd2a hd2b hh2 hmi2
          hmo1a hmo1b hd1a hd1b hh1 hmi1 (fields_lex_of_lt s2 s1 h)
      exact Nat.lt_asymm hM hlt

/-- Claim C7: for valid 12-digit timestamp names, the string order the
snapshot sort uses is exactly chronological order (minutes since
0000-01-01 00:00 local time, proleptic Gregorian); hence sorting the names
and taking the last (maximum) element selects the chronologically latest
snapshot, e.g. `202402020000` over `202401010000`. -/
theorem C7_lexical_chronological :
    (∀ T1 T2 : String, Valid12 T1 → Valid12 T2 →
        (strLt T1 T2 = true ↔ toMinutes T1 < toMinutes T2)) ∧
    (∀ (l : List String) (d : String), (∀ s ∈ l, Valid12 s) →
        ∀ s ∈ l, toMinutes s ≤ toMinutes ((sortStrings l).getLastD d)) ∧
    (sortStrings ["202401010000", "202402020000"]).getLastD "" = "202402020000" := by
  have hmain : ∀ T1 T2 : String, Valid12 T1 → Valid12 T2 →
      (strLt T1 T2 = true ↔ toMinutes T1 < toMinutes T2) := by
    intro T1 T2 hv1 hv2
    have h1 := charListLt_iff_val T1.data T2.data
      (by rw [hv1.1, hv2.1]) hv1.2.1 hv2.2.1
    rw [show strLt T1 T2 = charListLt T1.data T2.data from rfl, h1]
    exact tsVal_lt_iff_toMinutes hv1 hv2
  refine ⟨hmain, ?_, by decide⟩
  intro l d hall s hs
  have hM : (sortStrings l).getLastD d ∈ l :=
    sortStrings_last_mem (by intro hnil; rw [hnil] at hs; cases hs) d
  have hle := sortStrings_max hs d
  have hvM := hall _ hM
  have hvs := hall s hs
  by_cases hlt : strLt ((sortStrings l).getLastD d) s = true
  · unfold strLe at hle
    rw [hlt] at hle
    simp at hle
  · have hnm : ¬ toMinutes ((sortStrings l).getLastD d) < toMinutes s := by
      intro hc
      exact hlt ((hmain _ _ hvM hvs).mpr hc)
    exact Nat.le_of_not_lt hnm

set_option maxRecDepth 20000 in
/-- Witness for C7: the lexically larger concrete timestamp denotes the
later time. -/
theorem C7_lexical_chronological_witness :
    toMinutes "202401010000" < toMinutes "202402020000" :=
  (C7_lexical_chronological.1 "202401010000" "202402020000"
    (by decide) (by decide)).mp (by decide)

end BackupRs
